import Mathlib

/-!
Verification of the entity-graph migration engine of this repository
(`src/packages/transformer/src/JsPolymorphicInserter.ts`, which contains two
revisions of the transformer, and the `IModelElementCloneContext` source
file) against its natural-language specification.

Pure functions are translated directly; the stateful loops of
`rawEmulatedPolymorphicInsertTransform` are translated as folds over
explicit state.  Identifiers are modelled as `Nat` (64-bit ids; no
arithmetic performed by the modelled code can overflow from an in-range
input, since ids only ever have offsets of other in-range ids added).
Fallible statements are modelled with `Except`/`Option`.
-/

namespace Spec2Proof

/-- One run of a compact remap table, i.e. one row
`(SourceId, TargetId, Length)` of the `temp.*_remap` SQL tables created by
`rawEmulatedPolymorphicInsertTransform`: every id `x` in
`[sourceId, sourceId + length)` maps to `targetId + (x - sourceId)`. -/
structure RemapRun where
  sourceId : Nat
  targetId : Nat
  length : Nat
deriving DecidableEq, Repr

/-- Lookup of an id in a run list: the value of the first run covering `x`
(for well-formed tables there is at most one). -/
def runsGet (x : Nat) : List RemapRun → Option Nat
  | [] => none
  | r :: rs =>
    if r.sourceId ≤ x ∧ x < r.sourceId + r.length then
      some (r.targetId + (x - r.sourceId))
    else runsGet x rs

/-- Modelled from the spec: the insertion step of `CompactRemapTable.remap`.
`CompactRemapTable` is imported by `JsPolymorphicInserter.ts` from
`./CompactRemapTable`, whose source file is not among the provided sources;
spec §4.1 says `remap(sourceId, targetId)` "inserts or overwrites the
mapping for exactly one identifier", keeping runs sorted by source start.
This function inserts the single-identifier mapping in sorted position,
leaving an existing covering run untouched when the implied offset already
matches, and splitting it around the overwritten identifier otherwise; the
extension/coalescing behaviour of §4.1 is realized by the separate
`coalesceRuns` pass below. -/
def insertRun (s t : Nat) : List RemapRun → List RemapRun
  | [] => [⟨s, t, 1⟩]
  | r :: rs =>
    if s < r.sourceId then ⟨s, t, 1⟩ :: r :: rs
    else if s < r.sourceId + r.length then
      if t = r.targetId + (s - r.sourceId) then r :: rs
      else if r.sourceId < s then
        if s + 1 < r.sourceId + r.length then
          ⟨r.sourceId, r.targetId, s - r.sourceId⟩ :: ⟨s, t, 1⟩ ::
            ⟨s + 1, r.targetId + (s + 1 - r.sourceId), r.sourceId + r.length - (s + 1)⟩ :: rs
        else ⟨r.sourceId, r.targetId, s - r.sourceId⟩ :: ⟨s, t, 1⟩ :: rs
      else
        if s + 1 < r.sourceId + r.length then
          ⟨s, t, 1⟩ ::
            ⟨s + 1, r.targetId + (s + 1 - r.sourceId), r.sourceId + r.length - (s + 1)⟩ :: rs
        else ⟨s, t, 1⟩ :: rs
    else r :: insertRun s t rs

/-- Modelled from the spec: the coalescing pass of §4.1 — adjacent runs are
merged "whenever targetStart_new == targetStart_prev + length_prev (i.e.,
the offset is unchanged)". -/
def coalesceRuns : List RemapRun → List RemapRun
  | [] => []
  | [r] => [r]
  | r1 :: r2 :: rs =>
    if r1.sourceId + r1.length = r2.sourceId ∧ r1.targetId + r1.length = r2.targetId then
      coalesceRuns (⟨r1.sourceId, r1.targetId, r1.length + r2.length⟩ :: rs)
    else r1 :: coalesceRuns (r2 :: rs)
termination_by l => l.length

/-- Modelled from the spec: the compact, range-compressed remap table of
§4.1 (`CompactRemapTable`, not among the provided source files).  The
state is the run list kept sorted by `sourceId` in ascending order. -/
structure CompactRemapTable where
  runsList : List RemapRun
deriving DecidableEq, Repr

/-- A remap table starts out empty (spec §3 lifecycle). -/
def CompactRemapTable.empty : CompactRemapTable := ⟨[]⟩

/-- Modelled from the spec: `remap(sourceId, targetId)` of §4.1. -/
def CompactRemapTable.remap (tbl : CompactRemapTable) (s t : Nat) : CompactRemapTable :=
  ⟨coalesceRuns (insertRun s t tbl.runsList)⟩

/-- Modelled from the spec: `get(sourceId)` of §4.1 — the mapped target id
via search over run starts, `none` ("unmapped") when no run covers it. -/
def CompactRemapTable.get (tbl : CompactRemapTable) (x : Nat) : Option Nat :=
  runsGet x tbl.runsList

/-- Modelled from the spec: `runs()` of §4.1 — the `(from, to, length)`
triples in ascending source order, used to bulk-load `temp.*_remap`. -/
def CompactRemapTable.runs (tbl : CompactRemapTable) : List RemapRun :=
  tbl.runsList

/-- Well-formedness invariant of a run list (spec §3: "source ranges across
all runs in one table are disjoint and … kept sorted by sourceStart"):
every run is non-empty and each run ends at or before the next one starts. -/
def RunsWF (l : List RemapRun) : Prop :=
  (∀ r ∈ l, 0 < r.length) ∧ l.Pairwise (fun a b => a.sourceId + a.length ≤ b.sourceId)

instance (l : List RemapRun) : Decidable (RunsWF l) := by
  unfold RunsWF; exact instDecidableAnd

/-- Well-formedness of a table. -/
def CompactRemapTable.WF (tbl : CompactRemapTable) : Prop :=
  RunsWF tbl.runsList

instance (tbl : CompactRemapTable) : Decidable tbl.WF := by
  unfold CompactRemapTable.WF; infer_instance

theorem runsGet_none_of_not_covered {x : Nat} {l : List RemapRun}
    (h : ∀ r ∈ l, ¬(r.sourceId ≤ x ∧ x < r.sourceId + r.length)) :
    runsGet x l = none := by
  induction l with
  | nil => rfl
  | cons a as ih =>
    simp only [runsGet]
    rw [if_neg (h a (List.mem_cons_self a as))]
    exact ih fun r hr => h r (List.mem_cons_of_mem _ hr)

theorem runsGet_of_mem {x : Nat} {l : List RemapRun} {r : RemapRun} (hwf : RunsWF l)
    (hr : r ∈ l) (h1 : r.sourceId ≤ x) (h2 : x < r.sourceId + r.length) :
    runsGet x l = some (r.targetId + (x - r.sourceId)) := by
  induction l with
  | nil => cases hr
  | cons a as ih =>
    obtain ⟨hpos, hpw⟩ := hwf
    rw [List.pairwise_cons] at hpw
    rcases List.mem_cons.mp hr with rfl | hmem
    · simp only [runsGet]
      rw [if_pos ⟨h1, h2⟩]
    · have hle : a.sourceId + a.length ≤ r.sourceId := hpw.1 _ hmem
      have hnc : ¬(a.sourceId ≤ x ∧ x < a.sourceId + a.length) := by omega
      simp only [runsGet]
      rw [if_neg hnc]
      exact ih ⟨fun q hq => hpos q (List.mem_cons_of_mem _ hq), hpw.2⟩ hmem

theorem runsGet_insertRun (s t x : Nat) {l : List RemapRun} (hwf : RunsWF l) :
    runsGet x (insertRun s t l) = if x = s then some t else runsGet x l := by
  induction l with
  | nil =>
    simp only [insertRun, runsGet]
    split_ifs <;> first | rfl | (exfalso; omega) | (simp only [Option.some.injEq]; omega)
  | cons r rs ih =>
    obtain ⟨hpos, hpw⟩ := hwf
    rw [List.pairwise_cons] at hpw
    have hwf' : RunsWF rs := ⟨fun q hq => hpos q (List.mem_cons_of_mem _ hq), hpw.2⟩
    simp only [insertRun]
    by_cases hb1 : s < r.sourceId
    · rw [if_pos hb1]
      simp only [runsGet]
      split_ifs <;> first | rfl | (exfalso; omega) | (simp only [Option.some.injEq]; omega)
    · rw [if_neg hb1]
      by_cases hb2 : s < r.sourceId + r.length
      · rw [if_pos hb2]
        by_cases hb3 : t = r.targetId + (s - r.sourceId)
        · rw [if_pos hb3]
          simp only [runsGet]
          split_ifs <;> first | rfl | (exfalso; omega) | (simp only [Option.some.injEq]; omega)
        · rw [if_neg hb3]
          rcases Decidable.em (r.sourceId < s) with hL | hL <;>
            rcases Decidable.em (s + 1 < r.sourceId + r.length) with hR | hR <;>
            (first
              | rw [if_pos hL, if_pos hR] | rw [if_pos hL, if_neg hR]
              | rw [if_neg hL, if_pos hR] | rw [if_neg hL, if_neg hR]) <;>
            simp only [List.cons_append, List.nil_append, List.singleton_append, runsGet] <;>
            split_ifs <;>
            first | rfl | (exfalso; omega) | (simp only [Option.some.injEq]; omega)
      · rw [if_neg hb2]
        simp only [runsGet, ih hwf']
        split_ifs <;> first | rfl | (exfalso; omega) | (simp only [Option.some.injEq]; omega)

theorem RunsWF_cons {r : RemapRun} {l : List RemapRun} (h1 : 0 < r.length)
    (h2 : ∀ q ∈ l, r.sourceId + r.length ≤ q.sourceId) (h3 : RunsWF l) :
    RunsWF (r :: l) := by
  refine ⟨?_, List.pairwise_cons.mpr ⟨h2, h3.2⟩⟩
  intro q hq
  rcases List.mem_cons.mp hq with rfl | hq'
  · exact h1
  · exact h3.1 q hq'

theorem insertRun_sourceId_lb {c s t : Nat} {l : List RemapRun}
    (hs : c ≤ s) (hl : ∀ p ∈ l, c ≤ p.sourceId) :
    ∀ b ∈ insertRun s t l, c ≤ b.sourceId := by
  induction l with
  | nil =>
    intro b hb
    simp only [insertRun, List.mem_singleton] at hb
    subst hb; exact hs
  | cons r rs ih =>
    intro b hb
    have hr : c ≤ r.sourceId := hl r (List.mem_cons_self r rs)
    have hrs : ∀ p ∈ rs, c ≤ p.sourceId := fun p hp => hl p (List.mem_cons_of_mem _ hp)
    simp only [insertRun] at hb
    split_ifs at hb
    · simp only [List.mem_cons] at hb
      rcases hb with rfl | rfl | hmem
      · exact hs
      · exact hr
      · exact hrs b hmem
    · simp only [List.mem_cons] at hb
      rcases hb with rfl | hmem
      · exact hr
      · exact hrs b hmem
    · simp only [List.mem_cons] at hb
      rcases hb with rfl | rfl | rfl | hmem
      · exact hr
      · exact hs
      · exact Nat.le_succ_of_le hs
      · exact hrs b hmem
    · simp only [List.mem_cons] at hb
      rcases hb with rfl | rfl | hmem
      · exact hr
      · exact hs
      · exact hrs b hmem
    · simp only [List.mem_cons] at hb
      rcases hb with rfl | rfl | hmem
      · exact hs
      · exact Nat.le_succ_of_le hs
      · exact hrs b hmem
    · simp only [List.mem_cons] at hb
      rcases hb with rfl | hmem
      · exact hs
      · exact hrs b hmem
    · simp only [List.mem_cons] at hb
      rcases hb with rfl | hmem
      · exact hr
      · exact ih hrs b hmem

theorem RunsWF_insertRun (s t : Nat) {l : List RemapRun} (hwf : RunsWF l) :
    RunsWF (insertRun s t l) := by
  induction l with
  | nil =>
    refine ⟨?_, by simp [insertRun]⟩
    intro r hr
    simp only [insertRun, List.mem_singleton] at hr
    subst hr; exact Nat.one_pos
  | cons r rs ih =>
    obtain ⟨hpos, hpw⟩ := hwf
    rw [List.pairwise_cons] at hpw
    have hposr : 0 < r.length := hpos r (List.mem_cons_self r rs)
    have hpos' : ∀ q ∈ rs, 0 < q.length := fun q hq => hpos q (List.mem_cons_of_mem _ hq)
    have hwf' : RunsWF rs := ⟨hpos', hpw.2⟩
    have hnext : ∀ q ∈ rs, r.sourceId + r.length ≤ q.sourceId := hpw.1
    simp only [insertRun]
    by_cases hb1 : s < r.sourceId
    · rw [if_pos hb1]
      refine RunsWF_cons Nat.one_pos ?_ (RunsWF_cons hposr hnext hwf')
      intro q hq
      rcases List.mem_cons.mp hq with rfl | hq'
      · dsimp only; omega
      · have := hnext q hq'; dsimp only; omega
    · rw [if_neg hb1]
      by_cases hb2 : s < r.sourceId + r.length
      · rw [if_pos hb2]
        by_cases hb3 : t = r.targetId + (s - r.sourceId)
        · rw [if_pos hb3]
          exact RunsWF_cons hposr hnext hwf'
        · rw [if_neg hb3]
          by_cases hL : r.sourceId < s
          · rw [if_pos hL]
            by_cases hR : s + 1 < r.sourceId + r.length
            · rw [if_pos hR]
              refine RunsWF_cons (by dsimp only; omega) ?_ (RunsWF_cons (by dsimp only; omega) ?_
                (RunsWF_cons (by dsimp only; omega) ?_ hwf'))
              · intro q hq
                rcases List.mem_cons.mp hq with rfl | hq'
                · dsimp only; omega
                · rcases List.mem_cons.mp hq' with rfl | hq''
                  · dsimp only; omega
                  · have := hnext q hq''; dsimp only; omega
              · intro q hq
                rcases List.mem_cons.mp hq with rfl | hq'
                · dsimp only; omega
                · have := hnext q hq'; dsimp only; omega
              · intro q hq
                have := hnext q hq; dsimp only; omega
            · rw [if_neg hR]
              refine RunsWF_cons (by dsimp only; omega) ?_ (RunsWF_cons (by dsimp only; omega) ?_ hwf')
              · intro q hq
                rcases List.mem_cons.mp hq with rfl | hq'
                · dsimp only; omega
                · have := hnext q hq'; dsimp only; omega
              · intro q hq
                have := hnext q hq; dsimp only; omega
          · rw [if_neg hL]
            by_cases hR : s + 1 < r.sourceId + r.length
            · rw [if_pos hR]
              refine RunsWF_cons (by dsimp only; omega) ?_ (RunsWF_cons (by dsimp only; omega) ?_ hwf')
              · intro q hq
                rcases List.mem_cons.mp hq with rfl | hq'
                · dsimp only; omega
                · have := hnext q hq'; dsimp only; omega
              · intro q hq
                have := hnext q hq; dsimp only; omega
            · rw [if_neg hR]
              refine RunsWF_cons (by dsimp only; omega) ?_ hwf'
              intro q hq
              have := hnext q hq; dsimp only; omega
      · rw [if_neg hb2]
        refine RunsWF_cons hposr ?_ (ih hwf')
        exact insertRun_sourceId_lb (by omega) hnext

theorem runsGet_coalesceRuns (x : Nat) (l : List RemapRun) :
    runsGet x (coalesceRuns l) = runsGet x l := by
  induction l using coalesceRuns.induct with
  | case1 => rw [coalesceRuns]
  | case2 r => rw [coalesceRuns]
  | case3 r1 r2 rs h ih =>
    rw [coalesceRuns, if_pos h, ih]
    obtain ⟨h1, h2⟩ := h
    simp only [runsGet]
    split_ifs <;>
      first
        | rfl
        | (exfalso; omega)
        | (simp only [Option.some.injEq]; omega)
        | (dsimp only at *; first | rfl | (exfalso; omega) | (simp only [Option.some.injEq]; omega))
  | case4 r1 r2 rs h ih =>
    rw [coalesceRuns, if_neg h]
    simp only [runsGet, ih]

theorem coalesceRuns_sourceId_mem {l : List RemapRun} {b : RemapRun}
    (hb : b ∈ coalesceRuns l) : ∃ r ∈ l, r.sourceId = b.sourceId := by
  induction l using coalesceRuns.induct with
  | case1 => rw [coalesceRuns] at hb; cases hb
  | case2 r =>
    rw [coalesceRuns] at hb
    simp only [List.mem_singleton] at hb
    subst hb
    exact ⟨b, List.mem_singleton_self b, rfl⟩
  | case3 r1 r2 rs h ih =>
    rw [coalesceRuns, if_pos h] at hb
    rcases ih hb with ⟨q, hq, hqe⟩
    rcases List.mem_cons.mp hq with rfl | hq'
    · exact ⟨r1, List.mem_cons_self _ _, hqe⟩
    · exact ⟨q, List.mem_cons_of_mem _ (List.mem_cons_of_mem _ hq'), hqe⟩
  | case4 r1 r2 rs h ih =>
    rw [coalesceRuns, if_neg h] at hb
    rcases List.mem_cons.mp hb with rfl | hb'
    · exact ⟨b, List.mem_cons_self _ _, rfl⟩
    · rcases ih hb' with ⟨q, hq, hqe⟩
      exact ⟨q, List.mem_cons_of_mem _ hq, hqe⟩

theorem RunsWF_coalesceRuns {l : List RemapRun} (hwf : RunsWF l) :
    RunsWF (coalesceRuns l) := by
  induction l using coalesceRuns.induct with
  | case1 => rw [coalesceRuns]; exact hwf
  | case2 r => rw [coalesceRuns]; exact hwf
  | case3 r1 r2 rs h ih =>
    rw [coalesceRuns, if_pos h]
    obtain ⟨hpos, hpw⟩ := hwf
    rw [List.pairwise_cons] at hpw
    obtain ⟨hb1, hpw2⟩ := hpw
    rw [List.pairwise_cons] at hpw2
    obtain ⟨hb2, hpw3⟩ := hpw2
    have hpos1 : 0 < r1.length := hpos r1 (List.mem_cons_self _ _)
    have hpos2 : 0 < r2.length := hpos r2 (List.mem_cons_of_mem _ (List.mem_cons_self _ _))
    apply ih
    refine RunsWF_cons (by dsimp only; omega) ?_ ?_
    · intro q hq
      have := hb2 q hq
      have := hb1 r2 (List.mem_cons_self _ _)
      dsimp only
      omega
    · refine ⟨?_, hpw3⟩
      intro q hq
      exact hpos q (List.mem_cons_of_mem _ (List.mem_cons_of_mem _ hq))
  | case4 r1 r2 rs h ih =>
    rw [coalesceRuns, if_neg h]
    obtain ⟨hpos, hpw⟩ := hwf
    rw [List.pairwise_cons] at hpw
    obtain ⟨hb1, hpw2⟩ := hpw
    have hwf2 : RunsWF (r2 :: rs) :=
      ⟨fun q hq => hpos q (List.mem_cons_of_mem _ hq), hpw2⟩
    refine RunsWF_cons (hpos r1 (List.mem_cons_self _ _)) ?_ (ih hwf2)
    intro q hq
    rcases coalesceRuns_sourceId_mem hq with ⟨p, hp, hpe⟩
    have := hb1 p hp
    omega

theorem CompactRemapTable.WF_empty : CompactRemapTable.empty.WF :=
  ⟨fun r hr => absurd hr (List.not_mem_nil r), List.Pairwise.nil⟩

theorem CompactRemapTable.WF_remap {tbl : CompactRemapTable} (hwf : tbl.WF) (s t : Nat) :
    (tbl.remap s t).WF :=
  RunsWF_coalesceRuns (RunsWF_insertRun s t hwf)

theorem CompactRemapTable.get_remap {tbl : CompactRemapTable} (hwf : tbl.WF) (s t x : Nat) :
    (tbl.remap s t).get x = if x = s then some t else tbl.get x := by
  unfold CompactRemapTable.get CompactRemapTable.remap
  rw [runsGet_coalesceRuns, runsGet_insertRun s t x hwf]

theorem CompactRemapTable.get_remap_self {tbl : CompactRemapTable} (hwf : tbl.WF) (s t : Nat) :
    (tbl.remap s t).get s = some t := by
  rw [CompactRemapTable.get_remap hwf, if_pos rfl]

theorem CompactRemapTable.get_remap_ne {tbl : CompactRemapTable} (hwf : tbl.WF) {s x : Nat}
    (t : Nat) (hx : x ≠ s) : (tbl.remap s t).get x = tbl.get x := by
  rw [CompactRemapTable.get_remap hwf, if_neg hx]

/-- The run-lookup SQL expression `remapSql` of `JsPolymorphicInserter.ts`
(lines 38-42): `SELECT TargetId + ((idExpr) - SourceId) FROM temp.X_remap
WHERE idExpr BETWEEN SourceId AND SourceId + Length - 1`.  A scalar
subquery with no matching row yields NULL (`none`); with the table's rows
being the run list, the first matching row is returned.  SQL arithmetic is
over integers, hence the `Int` bounds. -/
def sqlRunLookup (rows : List RemapRun) (x : Nat) : Option Int :=
  match rows.find? (fun r =>
      decide ((r.sourceId : Int) ≤ (x : Int) ∧
        (x : Int) ≤ (r.sourceId : Int) + (r.length : Int) - 1)) with
  | none => none
  | some r => some ((r.targetId : Int) + ((x : Int) - (r.sourceId : Int)))

theorem sqlRunLookup_eq_runsGet (rows : List RemapRun) (x : Nat)
    (hpos : ∀ r ∈ rows, 0 < r.length) :
    sqlRunLookup rows x = (runsGet x rows).map Int.ofNat := by
  induction rows with
  | nil => rfl
  | cons r rs ih =>
    have hr : 0 < r.length := hpos r (List.mem_cons_self _ _)
    have hrs : ∀ q ∈ rs, 0 < q.length := fun q hq => hpos q (List.mem_cons_of_mem _ hq)
    simp only [sqlRunLookup, runsGet, List.find?]
    by_cases hc : r.sourceId ≤ x ∧ x < r.sourceId + r.length
    · have hb : decide ((r.sourceId : Int) ≤ (x : Int) ∧
          (x : Int) ≤ (r.sourceId : Int) + (r.length : Int) - 1) = true := by
        rw [decide_eq_true_eq]; omega
      rw [hb, if_pos hc]
      simp only [Option.map_some', Option.some.injEq, Int.ofNat_eq_coe]
      omega
    · have hb : decide ((r.sourceId : Int) ≤ (x : Int) ∧
          (x : Int) ≤ (r.sourceId : Int) + (r.length : Int) - 1) = false := by
        rw [decide_eq_false_iff_not]; omega
      rw [hb, if_neg hc]
      simpa only [sqlRunLookup] using ih hrs

/-- Hex digit character, as produced by JavaScript `Number.toString(16)`. -/
def hexDigitChar (n : Nat) : Char :=
  if n < 10 then Char.ofNat (48 + n) else Char.ofNat (87 + n)

/-- Digit list of `n` in base 16, most significant first (JavaScript
`n.toString(16)` for a non-negative integer). -/
def toHexCore (n : Nat) : List Char :=
  if n < 16 then [hexDigitChar n]
  else toHexCore (n / 16) ++ [hexDigitChar (n % 16)]
termination_by n
decreasing_by exact Nat.div_lt_self (by omega) (by omega)

/-- The hex-string rendering used throughout the transformer:
`0x...` (template literal with `.toString(16)`). -/
def natToHexStr (n : Nat) : String :=
  "0x" ++ String.mk (toHexCore n)

/-- Numeric value of a hex digit character, `none` for non-digits. -/
def hexCharVal (c : Char) : Option Nat :=
  if 48 ≤ c.toNat ∧ c.toNat ≤ 57 then some (c.toNat - 48)
  else if 97 ≤ c.toNat ∧ c.toNat ≤ 102 then some (c.toNat - 87)
  else if 65 ≤ c.toNat ∧ c.toNat ≤ 70 then some (c.toNat - 55)
  else none

/-- Fold hex digits until the first non-digit, JavaScript-`parseInt` style. -/
def parseHexDigits : List Char → Nat → Nat
  | [], acc => acc
  | c :: rest, acc =>
    match hexCharVal c with
    | some v => parseHexDigits rest (acc * 16 + v)
    | none => acc

/-- JavaScript `parseInt(id, 16)` as used by `makeGetter` on `Id64String`
inputs: an optional `0x`/`0X` prefix followed by hex digits (parsing stops
at the first non-digit; the NaN result for an empty digit string is
approximated as 0, which `CompactRemapTable.get` treats the same way as
NaN — no run covers it under well-formed use). -/
def parseHexId (s : String) : Nat :=
  let cs := s.data
  let cs := if cs.take 2 = ['0', 'x'] ∨ cs.take 2 = ['0', 'X'] then cs.drop 2 else cs
  parseHexDigits cs 0

/-- `makeGetter` of `JsPolymorphicInserter.ts` (lines 742-745): builds a
`Remapper` lookup over a `CompactRemapTable`; returns the string "0" when
the table lookup is `undefined` (unmapped) or 0, the `0x`-hex rendering of
the target id otherwise. -/
def makeGetter (table : CompactRemapTable) (id : String) : String :=
  match table.get (parseHexId id) with
  | none => "0"
  | some targetIntId => if targetIntId = 0 then "0" else natToHexStr targetIntId

/-- The sorted multiway ("k-way") merge loop of
`rawEmulatedPolymorphicInsertTransform` (lines 643-677): three ascending
cursors over `ElementMultiAspect`, `ElementUniqueAspect` and
`ElementRefersToElements` instance ids (all sharing the non-element entity
id namespace).  An exhausted cursor reports positive infinity, so it is
never the minimum while another cursor remains; the loop breaks when all
three are exhausted.  Before picking the minimum, the loop asserts that no
two non-exhausted heads are equal (`assert(id1 !== id2)`, lines 655-664);
`Except.error` models that assertion throwing.  The chosen head is remapped
to the next value of the single instance-id counter (`useInstanceIdRaw`,
lines 576-581) and its cursor advanced.  The result is the list of
`(sourceId, targetId)` remap calls in order. -/
def merge3 (c : Nat) (ma ua rel : List Nat) : Except Unit (List (Nat × Nat)) :=
  match ma, ua, rel with
  | [], [], [] => .ok []
  | m :: ma', [], [] =>
    (merge3 (c + 1) ma' [] []).map (fun ps => (m, c) :: ps)
  | [], u :: ua', [] =>
    (merge3 (c + 1) [] ua' []).map (fun ps => (u, c) :: ps)
  | [], [], r :: rel' =>
    (merge3 (c + 1) [] [] rel').map (fun ps => (r, c) :: ps)
  | m :: ma', u :: ua', [] =>
    if u = m then .error ()
    else if m < u then (merge3 (c + 1) ma' (u :: ua') []).map (fun ps => (m, c) :: ps)
    else (merge3 (c + 1) (m :: ma') ua' []).map (fun ps => (u, c) :: ps)
  | m :: ma', [], r :: rel' =>
    if r = m then .error ()
    else if m < r then (merge3 (c + 1) ma' [] (r :: rel')).map (fun ps => (m, c) :: ps)
    else (merge3 (c + 1) (m :: ma') [] rel').map (fun ps => (r, c) :: ps)
  | [], u :: ua', r :: rel' =>
    if u = r then .error ()
    else if u < r then (merge3 (c + 1) [] ua' (r :: rel')).map (fun ps => (u, c) :: ps)
    else (merge3 (c + 1) [] (u :: ua') rel').map (fun ps => (r, c) :: ps)
  | m :: ma', u :: ua', r :: rel' =>
    if u = r ∨ u = m ∨ r = m then .error ()
    else if m < u ∧ m < r then
      (merge3 (c + 1) ma' (u :: ua') (r :: rel')).map (fun ps => (m, c) :: ps)
    else if u < r then
      (merge3 (c + 1) (m :: ma') ua' (r :: rel')).map (fun ps => (u, c) :: ps)
    else
      (merge3 (c + 1) (m :: ma') (u :: ua') rel').map (fun ps => (r, c) :: ps)
termination_by ma.length + ua.length + rel.length
decreasing_by all_goals simp_arith

theorem exceptMap_ok {α β ε : Type} {f : α → β} {e : Except ε α} {b : β}
    (h : e.map f = .ok b) : ∃ a, e = .ok a ∧ b = f a := by
  cases e with
  | error e => simp [Except.map] at h
  | ok a =>
    refine ⟨a, rfl, ?_⟩
    simpa [Except.map] using h.symm

theorem merge3_snd_step {c v : Nat} {e : Except Unit (List (Nat × Nat))}
    {ps : List (Nat × Nat)}
    (h : e.map (fun qs => (v, c) :: qs) = .ok ps)
    (ih : ∀ qs, e = .ok qs → qs.map Prod.snd = List.range' (c + 1) qs.length) :
    ps.map Prod.snd = List.range' c ps.length := by
  rcases exceptMap_ok h with ⟨qs, hrec, rfl⟩
  simp only [List.map_cons, List.length_cons, ih qs hrec, List.range'_succ]

/-- The target ids emitted by the merge loop are the consecutive values of
the single instance-id counter, whatever the input streams are. -/
theorem merge3_ok_snd (c : Nat) (ma ua rel : List Nat) :
    ∀ ps, merge3 c ma ua rel = .ok ps →
      ps.map Prod.snd = List.range' c ps.length := by
  induction c, ma, ua, rel using merge3.induct with
  | case1 c =>
    intro ps h
    simp only [merge3] at h
    injection h with h
    subst h
    rfl
  | case2 c m ma' ih =>
    intro ps h
    simp only [merge3] at h
    exact merge3_snd_step h ih
  | case3 c u ua' ih =>
    intro ps h
    simp only [merge3] at h
    exact merge3_snd_step h ih
  | case4 c r rel' ih =>
    intro ps h
    simp only [merge3] at h
    exact merge3_snd_step h ih
  | case5 c ma' u ua' =>
    intro ps h
    simp [merge3] at h
  | case6 c m ma' u ua' hne hlt ih =>
    intro ps h
    simp only [merge3] at h
    rw [if_neg hne, if_pos hlt] at h
    exact merge3_snd_step h ih
  | case7 c m ma' u ua' hne hlt ih =>
    intro ps h
    simp only [merge3] at h
    rw [if_neg hne, if_neg hlt] at h
    exact merge3_snd_step h ih
  | case8 c ma' r rel' =>
    intro ps h
    simp [merge3] at h
  | case9 c m ma' r rel' hne hlt ih =>
    intro ps h
    simp only [merge3] at h
    rw [if_neg hne, if_pos hlt] at h
    exact merge3_snd_step h ih
  | case10 c m ma' r rel' hne hlt ih =>
    intro ps h
    simp only [merge3] at h
    rw [if_neg hne, if_neg hlt] at h
    exact merge3_snd_step h ih
  | case11 c ua' r rel' =>
    intro ps h
    simp [merge3] at h
  | case12 c u ua' r rel' hne hlt ih =>
    intro ps h
    simp only [merge3] at h
    rw [if_neg hne, if_pos hlt] at h
    exact merge3_snd_step h ih
  | case13 c u ua' r rel' hne hlt ih =>
    intro ps h
    simp only [merge3] at h
    rw [if_neg hne, if_neg hlt] at h
    exact merge3_snd_step h ih
  | case14 c m ma' u ua' r rel' hor =>
    intro ps h
    simp only [merge3] at h
    rw [if_pos hor] at h
    exact Except.noConfusion h
  | case15 c m ma' u ua' r rel' hnor hm ih =>
    intro ps h
    simp only [merge3] at h
    rw [if_neg hnor, if_pos hm] at h
    exact merge3_snd_step h ih
  | case16 c m ma' u ua' r rel' hnor hnm hur ih =>
    intro ps h
    simp only [merge3] at h
    rw [if_neg hnor, if_neg hnm, if_pos hur] at h
    exact merge3_snd_step h ih
  | case17 c m ma' u ua' r rel' hnor hnm hur ih =>
    intro ps h
    simp only [merge3] at h
    rw [if_neg hnor, if_neg hnm, if_neg hur] at h
    exact merge3_snd_step h ih

theorem sorted_head_le {u v : Nat} {l : List Nat} (h : (u :: l).Pairwise (· < ·))
    (hv : v ∈ u :: l) : u ≤ v := by
  rcases List.mem_cons.mp hv with rfl | hv'
  · exact le_refl v
  · exact le_of_lt ((List.pairwise_cons.mp h).1 v hv')

/-- If two of the (strictly ascending) input streams contain a common value,
the merge loop reaches a state where two cursors report the same head and
the pairwise assertion fails — the run aborts instead of silently
remapping the same id twice. -/
theorem merge3_shared_error (c : Nat) (ma ua rel : List Nat) :
    ma.Pairwise (· < ·) → ua.Pairwise (· < ·) → rel.Pairwise (· < ·) →
    ∀ v, ((v ∈ ma ∧ v ∈ ua) ∨ (v ∈ ma ∧ v ∈ rel) ∨ (v ∈ ua ∧ v ∈ rel)) →
      merge3 c ma ua rel = .error () := by
  induction c, ma, ua, rel using merge3.induct with
  | case1 c => intro _ _ _ v hv; simp at hv
  | case2 c m ma' ih => intro _ _ _ v hv; simp at hv
  | case3 c u ua' ih => intro _ _ _ v hv; simp at hv
  | case4 c r rel' ih => intro _ _ _ v hv; simp at hv
  | case5 c ma' u ua' => intro _ _ _ v hv; simp [merge3]
  | case6 c m ma' u ua' hne hlt ih =>
    intro hma hua hrel v hv
    simp only [List.not_mem_nil, and_false, or_false, false_and, or_self] at hv
    obtain ⟨hvma, hvua⟩ := hv
    have huv : u ≤ v := sorted_head_le hua hvua
    have hvma' : v ∈ ma' := by
      rcases List.mem_cons.mp hvma with rfl | h'
      · omega
      · exact h'
    have herr : merge3 (c + 1) ma' (u :: ua') [] = .error () :=
      ih hma.of_cons hua hrel v (Or.inl ⟨hvma', hvua⟩)
    simp only [merge3]
    rw [if_neg hne, if_pos hlt, herr]
    rfl
  | case7 c m ma' u ua' hne hlt ih =>
    intro hma hua hrel v hv
    simp only [List.not_mem_nil, and_false, or_false, false_and, or_self] at hv
    obtain ⟨hvma, hvua⟩ := hv
    have hmv : m ≤ v := sorted_head_le hma hvma
    have hvua' : v ∈ ua' := by
      rcases List.mem_cons.mp hvua with rfl | h'
      · omega
      · exact h'
    have herr : merge3 (c + 1) (m :: ma') ua' [] = .error () :=
      ih hma hua.of_cons hrel v (Or.inl ⟨hvma, hvua'⟩)
    simp only [merge3]
    rw [if_neg hne, if_neg hlt, herr]
    rfl
  | case8 c ma' r rel' => intro _ _ _ v hv; simp [merge3]
  | case9 c m ma' r rel' hne hlt ih =>
    intro hma hua hrel v hv
    simp only [List.not_mem_nil, and_false, or_false, false_and, false_or,
      or_self] at hv
    obtain ⟨hvma, hvrel⟩ := hv
    have hrv : r ≤ v := sorted_head_le hrel hvrel
    have hvma' : v ∈ ma' := by
      rcases List.mem_cons.mp hvma with rfl | h'
      · omega
      · exact h'
    have herr : merge3 (c + 1) ma' [] (r :: rel') = .error () :=
      ih hma.of_cons hua hrel v (Or.inr (Or.inl ⟨hvma', hvrel⟩))
    simp only [merge3]
    rw [if_neg hne, if_pos hlt, herr]
    rfl
  | case10 c m ma' r rel' hne hlt ih =>
    intro hma hua hrel v hv
    simp only [List.not_mem_nil, and_false, or_false, false_and, false_or,
      or_self] at hv
    obtain ⟨hvma, hvrel⟩ := hv
    have hmv : m ≤ v := sorted_head_le hma hvma
    have hvrel' : v ∈ rel' := by
      rcases List.mem_cons.mp hvrel with rfl | h'
      · omega
      · exact h'
    have herr : merge3 (c + 1) (m :: ma') [] rel' = .error () :=
      ih hma hua hrel.of_cons v (Or.inr (Or.inl ⟨hvma, hvrel'⟩))
    simp only [merge3]
    rw [if_neg hne, if_neg hlt, herr]
    rfl
  | case11 c ua' r rel' => intro _ _ _ v hv; simp [merge3]
  | case12 c u ua' r rel' hne hlt ih =>
    intro hma hua hrel v hv
    simp only [List.not_mem_nil, false_and, or_false, false_or, and_false,
      or_self] at hv
    obtain ⟨hvua, hvrel⟩ := hv
    have hrv : r ≤ v := sorted_head_le hrel hvrel
    have hvua' : v ∈ ua' := by
      rcases List.mem_cons.mp hvua with rfl | h'
      · omega
      · exact h'
    have herr : merge3 (c + 1) [] ua' (r :: rel') = .error () :=
      ih hma hua.of_cons hrel v (Or.inr (Or.inr ⟨hvua', hvrel⟩))
    simp only [merge3]
    rw [if_neg hne, if_pos hlt, herr]
    rfl
  | case13 c u ua' r rel' hne hlt ih =>
    intro hma hua hrel v hv
    simp only [List.not_mem_nil, false_and, or_false, false_or, and_false,
      or_self] at hv
    obtain ⟨hvua, hvrel⟩ := hv
    have huv : u ≤ v := sorted_head_le hua hvua
    have hvrel' : v ∈ rel' := by
      rcases List.mem_cons.mp hvrel with rfl | h'
      · omega
      · exact h'
    have herr : merge3 (c + 1) [] (u :: ua') rel' = .error () :=
      ih hma hua hrel.of_cons v (Or.inr (Or.inr ⟨hvua, hvrel'⟩))
    simp only [merge3]
    rw [if_neg hne, if_neg hlt, herr]
    rfl
  | case14 c m ma' u ua' r rel' hor =>
    intro _ _ _ v hv
    simp only [merge3]
    rw [if_pos hor]
  | case15 c m ma' u ua' r rel' hnor hm ih =>
    intro hma hua hrel v hv
    have herr : merge3 (c + 1) ma' (u :: ua') (r :: rel') = .error () := by
      apply ih hma.of_cons hua hrel v
      rcases hv with ⟨hvma, hvua⟩ | ⟨hvma, hvrel⟩ | hv3
      · have huv : u ≤ v := sorted_head_le hua hvua
        have hvma' : v ∈ ma' := by
          rcases List.mem_cons.mp hvma with rfl | h'
          · omega
          · exact h'
        exact Or.inl ⟨hvma', hvua⟩
      · have hrv : r ≤ v := sorted_head_le hrel hvrel
        have hvma' : v ∈ ma' := by
          rcases List.mem_cons.mp hvma with rfl | h'
          · omega
          · exact h'
        exact Or.inr (Or.inl ⟨hvma', hvrel⟩)
      · exact Or.inr (Or.inr hv3)
    simp only [merge3]
    rw [if_neg hnor, if_pos hm, herr]
    rfl
  | case16 c m ma' u ua' r rel' hnor hnm hur ih =>
    intro hma hua hrel v hv
    have hum : u < m := by
      rcases not_and_or.mp hnm with h | h
      · omega
      · have : r < m := by
          have : ¬r = m := fun he => hnor (Or.inr (Or.inr he))
          omega
        omega
    have herr : merge3 (c + 1) (m :: ma') ua' (r :: rel') = .error () := by
      apply ih hma hua.of_cons hrel v
      rcases hv with ⟨hvma, hvua⟩ | hv2 | ⟨hvua, hvrel⟩
      · have hmv : m ≤ v := sorted_head_le hma hvma
        have hvua' : v ∈ ua' := by
          rcases List.mem_cons.mp hvua with rfl | h'
          · omega
          · exact h'
        exact Or.inl ⟨hvma, hvua'⟩
      · exact Or.inr (Or.inl hv2)
      · have hrv : r ≤ v := sorted_head_le hrel hvrel
        have hvua' : v ∈ ua' := by
          rcases List.mem_cons.mp hvua with rfl | h'
          · omega
          · exact h'
        exact Or.inr (Or.inr ⟨hvua', hvrel⟩)
    simp only [merge3]
    rw [if_neg hnor, if_neg hnm, if_pos hur, herr]
    rfl
  | case17 c m ma' u ua' r rel' hnor hnm hur ih =>
    intro hma hua hrel v hv
    have hru : r < u := by
      have : ¬u = r := fun he => hnor (Or.inl he)
      omega
    have hrm : r < m := by
      rcases not_and_or.mp hnm with h | h
      · have : ¬u = m := fun he => hnor (Or.inr (Or.inl he))
        omega
      · have : ¬r = m := fun he => hnor (Or.inr (Or.inr he))
        omega
    have herr : merge3 (c + 1) (m :: ma') (u :: ua') rel' = .error () := by
      apply ih hma hua hrel.of_cons v
      rcases hv with hv1 | ⟨hvma, hvrel⟩ | ⟨hvua, hvrel⟩
      · exact Or.inl hv1
      · have hmv : m ≤ v := sorted_head_le hma hvma
        have hvrel' : v ∈ rel' := by
          rcases List.mem_cons.mp hvrel with rfl | h'
          · omega
          · exact h'
        exact Or.inr (Or.inl ⟨hvma, hvrel'⟩)
      · have huv : u ≤ v := sorted_head_le hua hvua
        have hvrel' : v ∈ rel' := by
          rcases List.mem_cons.mp hvrel with rfl | h'
          · omega
          · exact h'
        exact Or.inr (Or.inr ⟨hvua, hvrel'⟩)
    simp only [merge3]
    rw [if_neg hnor, if_neg hnm, if_neg hur, herr]
    rfl

set_option maxHeartbeats 1600000 in
/-- Under the namespace invariant (pairwise-disjoint, strictly ascending
streams) the merge loop succeeds, visits the union of the streams in
globally ascending source order, and no assertion fires. -/
theorem merge3_spec (c : Nat) (ma ua rel : List Nat) :
    ma.Pairwise (· < ·) → ua.Pairwise (· < ·) → rel.Pairwise (· < ·) →
    (∀ x ∈ ma, x ∉ ua) → (∀ x ∈ ma, x ∉ rel) → (∀ x ∈ ua, x ∉ rel) →
    ∃ ps, merge3 c ma ua rel = .ok ps
      ∧ (ps.map Prod.fst).Pairwise (· < ·)
      ∧ (∀ x, x ∈ ps.map Prod.fst ↔ (x ∈ ma ∨ x ∈ ua ∨ x ∈ rel)) := by
  induction c, ma, ua, rel using merge3.induct with
  | case1 c =>
    intro _ _ _ _ _ _
    refine ⟨[], ?_, ?_, ?_⟩
    · rw [merge3]
    · simp
    · simp
  | case2 c m ma' ih =>
    intro hma _ _ _ _ _
    obtain ⟨ps, hok, hsort, hmem⟩ :=
      ih hma.of_cons List.Pairwise.nil List.Pairwise.nil
        (by simp) (by simp) (by simp)
    refine ⟨(m, c) :: ps, ?_, ?_, ?_⟩
    · simp only [merge3]; rw [hok]; rfl
    · rw [List.map_cons, List.pairwise_cons]
      refine ⟨?_, hsort⟩
      intro x hx
      rcases (hmem x).mp hx with h | h | h
      · exact (List.pairwise_cons.mp hma).1 x h
      · cases h
      · cases h
    · intro x
      simp only [List.map_cons, List.mem_cons, hmem x, List.not_mem_nil, or_false]
  | case3 c u ua' ih =>
    intro _ hua _ _ _ _
    obtain ⟨ps, hok, hsort, hmem⟩ :=
      ih List.Pairwise.nil hua.of_cons List.Pairwise.nil
        (by simp) (by simp) (by simp)
    refine ⟨(u, c) :: ps, ?_, ?_, ?_⟩
    · simp only [merge3]; rw [hok]; rfl
    · rw [List.map_cons, List.pairwise_cons]
      refine ⟨?_, hsort⟩
      intro x hx
      rcases (hmem x).mp hx with h | h | h
      · cases h
      · exact (List.pairwise_cons.mp hua).1 x h
      · cases h
    · intro x
      simp only [List.map_cons, List.mem_cons, hmem x, List.not_mem_nil, or_false,
        false_or]
  | case4 c r rel' ih =>
    intro _ _ hrel _ _ _
    obtain ⟨ps, hok, hsort, hmem⟩ :=
      ih List.Pairwise.nil List.Pairwise.nil hrel.of_cons
        (by simp) (by simp) (by simp)
    refine ⟨(r, c) :: ps, ?_, ?_, ?_⟩
    · simp only [merge3]; rw [hok]; rfl
    · rw [List.map_cons, List.pairwise_cons]
      refine ⟨?_, hsort⟩
      intro x hx
      rcases (hmem x).mp hx with h | h | h
      · cases h
      · cases h
      · exact (List.pairwise_cons.mp hrel).1 x h
    · intro x
      simp only [List.map_cons, List.mem_cons, hmem x, List.not_mem_nil, or_false,
        false_or]
  | case5 c ma' u ua' =>
    intro _ _ _ d12 _ _
    exact absurd (List.mem_cons_self u ua') (d12 u (List.mem_cons_self u ma'))
  | case6 c m ma' u ua' hne hlt ih =>
    intro hma hua hrel d12 d13 d23
    obtain ⟨ps, hok, hsort, hmem⟩ :=
      ih hma.of_cons hua hrel
        (fun x hx => d12 x (List.mem_cons_of_mem _ hx))
        (fun x hx => d13 x (List.mem_cons_of_mem _ hx)) d23
    refine ⟨(m, c) :: ps, ?_, ?_, ?_⟩
    · simp only [merge3]; rw [if_neg hne, if_pos hlt, hok]; rfl
    · rw [List.map_cons, List.pairwise_cons]
      refine ⟨?_, hsort⟩
      intro x hx
      rcases (hmem x).mp hx with h | h | h
      · exact (List.pairwise_cons.mp hma).1 x h
      · have := sorted_head_le hua h; omega
      · cases h
    · intro x
      simp only [List.map_cons, List.mem_cons, hmem x, List.not_mem_nil, or_false]
      tauto
  | case7 c m ma' u ua' hne hlt ih =>
    intro hma hua hrel d12 d13 d23
    obtain ⟨ps, hok, hsort, hmem⟩ :=
      ih hma hua.of_cons hrel
        (fun x hx hx' => d12 x hx (List.mem_cons_of_mem _ hx')) d13
        (fun x hx => d23 x (List.mem_cons_of_mem _ hx))
    refine ⟨(u, c) :: ps, ?_, ?_, ?_⟩
    · simp only [merge3]; rw [if_neg hne, if_neg hlt, hok]; rfl
    · rw [List.map_cons, List.pairwise_cons]
      refine ⟨?_, hsort⟩
      intro x hx
      rcases (hmem x).mp hx with h | h | h
      · have := sorted_head_le hma h; omega
      · exact (List.pairwise_cons.mp hua).1 x h
      · cases h
    · intro x
      simp only [List.map_cons, List.mem_cons, hmem x, List.not_mem_nil, or_false]
      tauto
  | case8 c ma' r rel' =>
    intro _ _ _ _ d13 _
    exact absurd (List.mem_cons_self r rel') (d13 r (List.mem_cons_self r ma'))
  | case9 c m ma' r rel' hne hlt ih =>
    intro hma hua hrel d12 d13 d23
    obtain ⟨ps, hok, hsort, hmem⟩ :=
      ih hma.of_cons hua hrel
        (fun x hx => d12 x (List.mem_cons_of_mem _ hx))
        (fun x hx => d13 x (List.mem_cons_of_mem _ hx)) d23
    refine ⟨(m, c) :: ps, ?_, ?_, ?_⟩
    · simp only [merge3]; rw [if_neg hne, if_pos hlt, hok]; rfl
    · rw [List.map_cons, List.pairwise_cons]
      refine ⟨?_, hsort⟩
      intro x hx
      rcases (hmem x).mp hx with h | h | h
      · exact (List.pairwise_cons.mp hma).1 x h
      · cases h
      · have := sorted_head_le hrel h; omega
    · intro x
      simp only [List.map_cons, List.mem_cons, hmem x, List.not_mem_nil, or_false]
      tauto
  | case10 c m ma' r rel' hne hlt ih =>
    intro hma hua hrel d12 d13 d23
    obtain ⟨ps, hok, hsort, hmem⟩ :=
      ih hma hua hrel.of_cons d12
        (fun x hx hx' => d13 x hx (List.mem_cons_of_mem _ hx'))
        (fun x hx hx' => d23 x hx (List.mem_cons_of_mem _ hx'))
    refine ⟨(r, c) :: ps, ?_, ?_, ?_⟩
    · simp only [merge3]; rw [if_neg hne, if_neg hlt, hok]; rfl
    · rw [List.map_cons, List.pairwise_cons]
      refine ⟨?_, hsort⟩
      intro x hx
      rcases (hmem x).mp hx with h | h | h
      · have := sorted_head_le hma h; omega
      · cases h
      · exact (List.pairwise_cons.mp hrel).1 x h
    · intro x
      simp only [List.map_cons, List.mem_cons, hmem x, List.not_mem_nil, or_false]
      tauto
  | case11 c ua' r rel' =>
    intro _ _ _ _ _ d23
    exact absurd (List.mem_cons_self r rel') (d23 r (List.mem_cons_self r ua'))
  | case12 c u ua' r rel' hne hlt ih =>
    intro hma hua hrel d12 d13 d23
    obtain ⟨ps, hok, hsort, hmem⟩ :=
      ih hma hua.of_cons hrel
        (fun x hx hx' => d12 x hx (List.mem_cons_of_mem _ hx')) d13
        (fun x hx => d23 x (List.mem_cons_of_mem _ hx))
    refine ⟨(u, c) :: ps, ?_, ?_, ?_⟩
    · simp only [merge3]; rw [if_neg hne, if_pos hlt, hok]; rfl
    · rw [List.map_cons, List.pairwise_cons]
      refine ⟨?_, hsort⟩
      intro x hx
      rcases (hmem x).mp hx with h | h | h
      · cases h
      · exact (List.pairwise_cons.mp hua).1 x h
      · have := sorted_head_le hrel h; omega
    · intro x
      simp only [List.map_cons, List.mem_cons, hmem x, List.not_mem_nil, or_false,
        false_or]
      tauto
  | case13 c u ua' r rel' hne hlt ih =>
    intro hma hua hrel d12 d13 d23
    obtain ⟨ps, hok, hsort, hmem⟩ :=
      ih hma hua hrel.of_cons d12
        (fun x hx hx' => d13 x hx (List.mem_cons_of_mem _ hx'))
        (fun x hx hx' => d23 x hx (List.mem_cons_of_mem _ hx'))
    refine ⟨(r, c) :: ps, ?_, ?_, ?_⟩
    · simp only [merge3]; rw [if_neg hne, if_neg hlt, hok]; rfl
    · rw [List.map_cons, List.pairwise_cons]
      refine ⟨?_, hsort⟩
      intro x hx
      rcases (hmem x).mp hx with h | h | h
      · cases h
      · have := sorted_head_le hua h; omega
      · exact (List.pairwise_cons.mp hrel).1 x h
    · intro x
      simp only [List.map_cons, List.mem_cons, hmem x, List.not_mem_nil, or_false,
        false_or]
      tauto
  | case14 c m ma' u ua' r rel' hor =>
    intro _ _ _ d12 d13 d23
    rcases hor with he | he | he
    · exact absurd (List.mem_cons_self r rel')
        (he ▸ d23 u (List.mem_cons_self u ua'))
    · exact absurd (List.mem_cons_self u ua')
        (d12 u (he ▸ List.mem_cons_self m ma'))
    · exact absurd (List.mem_cons_self r rel')
        (d13 r (he ▸ List.mem_cons_self m ma'))
  | case15 c m ma' u ua' r rel' hnor hm ih =>
    intro hma hua hrel d12 d13 d23
    obtain ⟨ps, hok, hsort, hmem⟩ :=
      ih hma.of_cons hua hrel
        (fun x hx => d12 x (List.mem_cons_of_mem _ hx))
        (fun x hx => d13 x (List.mem_cons_of_mem _ hx)) d23
    refine ⟨(m, c) :: ps, ?_, ?_, ?_⟩
    · simp only [merge3]; rw [if_neg hnor, if_pos hm, hok]; rfl
    · rw [List.map_cons, List.pairwise_cons]
      refine ⟨?_, hsort⟩
      intro x hx
      rcases (hmem x).mp hx with h | h | h
      · exact (List.pairwise_cons.mp hma).1 x h
      · have := sorted_head_le hua h; omega
      · have := sorted_head_le hrel h; omega
    · intro x
      simp only [List.map_cons, List.mem_cons, hmem x]
      tauto
  | case16 c m ma' u ua' r rel' hnor hnm hur ih =>
    intro hma hua hrel d12 d13 d23
    have hum : u < m := by
      rcases not_and_or.mp hnm with h | h
      · have : ¬u = m := fun he => hnor (Or.inr (Or.inl he))
        omega
      · have : ¬r = m := fun he => hnor (Or.inr (Or.inr he))
        omega
    obtain ⟨ps, hok, hsort, hmem⟩ :=
      ih hma hua.of_cons hrel
        (fun x hx hx' => d12 x hx (List.mem_cons_of_mem _ hx')) d13
        (fun x hx => d23 x (List.mem_cons_of_mem _ hx))
    refine ⟨(u, c) :: ps, ?_, ?_, ?_⟩
    · simp only [merge3]; rw [if_neg hnor, if_neg hnm, if_pos hur, hok]; rfl
    · rw [List.map_cons, List.pairwise_cons]
      refine ⟨?_, hsort⟩
      intro x hx
      rcases (hmem x).mp hx with h | h | h
      · have := sorted_head_le hma h; omega
      · exact (List.pairwise_cons.mp hua).1 x h
      · have := sorted_head_le hrel h; omega
    · intro x
      simp only [List.map_cons, List.mem_cons, hmem x]
      tauto
  | case17 c m ma' u ua' r rel' hnor hnm hur ih =>
    intro hma hua hrel d12 d13 d23
    have hru : r < u := by
      have : ¬u = r := fun he => hnor (Or.inl he)
      omega
    have hrm : r < m := by
      rcases not_and_or.mp hnm with h | h
      · have : ¬u = m := fun he => hnor (Or.inr (Or.inl he))
        omega
      · have : ¬r = m := fun he => hnor (Or.inr (Or.inr he))
        omega
    obtain ⟨ps, hok, hsort, hmem⟩ :=
      ih hma hua hrel.of_cons d12
        (fun x hx hx' => d13 x hx (List.mem_cons_of_mem _ hx'))
        (fun x hx hx' => d23 x hx (List.mem_cons_of_mem _ hx'))
    refine ⟨(r, c) :: ps, ?_, ?_, ?_⟩
    · simp only [merge3]; rw [if_neg hnor, if_neg hnm, if_neg hur, hok]; rfl
    · rw [List.map_cons, List.pairwise_cons]
      refine ⟨?_, hsort⟩
      intro x hx
      rcases (hmem x).mp hx with h | h | h
      · have := sorted_head_le hma h; omega
      · have := sorted_head_le hua h; omega
      · exact (List.pairwise_cons.mp hrel).1 x h
    · intro x
      simp only [List.map_cons, List.mem_cons, hmem x]
      tauto

/-! ### Two-phase populate/hydrate (second transformer revision)

The second revision of `rawEmulatedPolymorphicInsertTransform` drives, per
source element in ascending id order, a `populate` statement (INSERT with
the placeholder value `0x1` for every navigation/Long reference column and
NULL for `CodeValue`, lines 906-939), records the returned target id into
`temp.element_remap` (lines 1234-1241), and in a second pass drives the
`update` statement (lines 869-904, 1243-1254), which rewrites every
reference column of the row whose target id is the remap of the source id
to `(SELECT TargetId FROM temp.element_remap WHERE SourceId = <ref>)`.
An element is modelled by its id, its reference-property values and one
opaque scalar payload. -/

/-- A source element as produced by `sourceElemSelect`: its id, the source
ids held by its reference (navigation) properties, and its scalar data. -/
structure SourceElem where
  id : Nat
  refs : List Nat
  data : String
deriving DecidableEq, Repr

/-- Expected remap rows recorded by the populate pass. -/
def popPairsFrom (n0 : Nat) : List SourceElem → List (Nat × Nat)
  | [] => []
  | e :: rest => (e.id, n0) :: popPairsFrom (n0 + 1) rest

theorem popPairsFrom_fst {n0 : Nat} {src : List SourceElem} :
    ∀ p ∈ popPairsFrom n0 src, ∃ e ∈ src, p.1 = e.id := by
  induction src generalizing n0 with
  | nil => intro p hp; cases hp
  | cons e rest ih =>
    intro p hp
    simp only [popPairsFrom, List.mem_cons] at hp
    rcases hp with rfl | hp'
    · exact ⟨e, List.mem_cons_self _ _, rfl⟩
    · rcases ih p hp' with ⟨q, hq, hqe⟩
      exact ⟨q, List.mem_cons_of_mem _ hq, hqe⟩

/-- The element remap table after the fixed seeding of the first revision:
`remap(0, 0)` for every table (line 524), then `remap(1,1)`, `remap(0xe,0xe)`
and `remap(0x10,0x10)` for the element table (lines 536-538). -/
def bootstrapElemTable : CompactRemapTable :=
  (((CompactRemapTable.empty.remap 0 0).remap 0x1 0x1).remap 0xe 0xe).remap 0x10 0x10

/-- The WHERE filter shared by the element selection queries
(`WHERE ECInstanceId NOT IN (0x1, 0xe, 0x10)` in `selectSql` for
element-rooted classes, lines 282-284, and in `sourceElemRemapSelect`,
lines 584-590): `true` when the row is selected for migration. -/
def elemSelectKeeps (id : Nat) : Bool :=
  !(id == 0x1 || id == 0xe || id == 0x10)

/-- The element remap allocation loop (lines 592-599): walk the selected
element ids in ascending order, remapping each to the next value of the
element id counter `useElemIdRaw`. -/
def allocElems (tbl : CompactRemapTable) (nextId : Nat) : List Nat → CompactRemapTable × Nat
  | [] => (tbl, nextId)
  | s :: rest => allocElems (tbl.remap s nextId) (nextId + 1) rest

theorem allocElems_preserves {x : Nat} :
    ∀ (ids : List Nat) (tbl : CompactRemapTable) (n : Nat), tbl.WF →
    (∀ s ∈ ids, s ≠ x) →
    (allocElems tbl n ids).1.get x = tbl.get x ∧ (allocElems tbl n ids).1.WF := by
  intro ids
  induction ids with
  | nil => intro tbl n hwf _; exact ⟨rfl, hwf⟩
  | cons s rest ih =>
    intro tbl n hwf hne
    have hwf' := CompactRemapTable.WF_remap hwf s n
    have hrest : ∀ q ∈ rest, q ≠ x := fun q hq => hne q (List.mem_cons_of_mem _ hq)
    obtain ⟨hget, hwf''⟩ := ih (tbl.remap s n) (n + 1) hwf' hrest
    refine ⟨?_, hwf''⟩
    rw [show allocElems tbl n (s :: rest) = allocElems (tbl.remap s n) (n + 1) rest from rfl,
      hget]
    exact CompactRemapTable.get_remap_ne hwf n
      fun h => (hne s (List.mem_cons_self _ _)) h.symm

/-! ### Code-spec migration (natural-key matching) -/

/-- A `bis_CodeSpec` row: id, the natural key `Name`, `JsonProperties`. -/
structure CodeSpecRow where
  id : Nat
  name : String
  jsonProps : String
deriving DecidableEq, Repr

/-- The `LEFT JOIN ... ON s.Name=t.Name` lookup over a row list: the first
row whose `Name` matches, if any (`Name` carries a unique index, so there
is at most one).  Which rows the joined table `main.bis_CodeSpec` holds
depends on the connection the statement runs on: the target's rows for the
second revision's `sourceCodeSpecSelect` (prepared on the target
connection, line 1179), the source's own rows for the first revision's
`codeSpecRemapSelect` (prepared on the source connection, line 698). -/
def findByName (rows : List CodeSpecRow) (n : String) : Option CodeSpecRow :=
  rows.find? fun t => t.name == n

/-- One iteration of the code-spec migration loop of the SECOND revision
(lines 1179-1210), whose select runs on the target connection with the
source attached: when a target row with the same name exists, its id is
recorded into `temp.codespec_remap` for the source id; otherwise the spec
is inserted (receiving the store-assigned id `nextId`) and that new id is
recorded.  The first revision's loop behaves differently and is modelled
separately by `codeSpecRemapFirstRev` below. -/
def migrateCodeSpec (tgt : List CodeSpecRow) (nextId : Nat)
    (rm : List (Nat × Nat)) (s : CodeSpecRow) :
    List CodeSpecRow × Nat × List (Nat × Nat) :=
  match findByName tgt s.name with
  | some t => (tgt, nextId, rm ++ [(s.id, t.id)])
  | none =>
    (tgt ++ [{ id := nextId, name := s.name, jsonProps := s.jsonProps }],
      nextId + 1, rm ++ [(s.id, nextId)])

/-- Body of the FIRST revision's code-spec remap loop (lines 690-706) as
it actually executes.  `codeSpecRemapSelect` is prepared with
`source.withPreparedSqliteStatement` (line 698), i.e. on the SOURCE
connection; the source database is attached as `source` only on the
target connection (line 533), so on this connection both the unqualified
`bis_CodeSpec` and `main.bis_CodeSpec` resolve to the source's own table
and the LEFT JOIN matches each source row against the source's own rows.
`allRows` is that joined table (= the source rows themselves); for each
cursor row the loop records `(s.Id, t.Id)` into `temp.codespec_remap`,
drawing a fresh id from the target-derived counter (`useCodeSpecIdRaw`,
lines 680-688) only when the join produced NULL. -/
def codeSpecRemapFirstRevGo (allRows : List CodeSpecRow) :
    List CodeSpecRow → Nat → List (Nat × Nat) × Nat
  | [], n => ([], n)
  | s :: rest, n =>
    match findByName allRows s.name with
    | some t =>
      let r := codeSpecRemapFirstRevGo allRows rest n
      ((s.id, t.id) :: r.1, r.2)
    | none =>
      let r := codeSpecRemapFirstRevGo allRows rest (n + 1)
      ((s.id, n) :: r.1, r.2)

/-- The first revision's code-spec remap pass over the source's rows: the
recorded `temp.codespec_remap` rows and the final counter value. -/
def codeSpecRemapFirstRev (srcRows : List CodeSpecRow) (nextCodeSpecId : Nat) :
    List (Nat × Nat) × Nat :=
  codeSpecRemapFirstRevGo srcRows srcRows nextCodeSpecId

theorem findByName_self {rows : List CodeSpecRow}
    (hnd : (rows.map CodeSpecRow.name).Nodup) {s : CodeSpecRow} (hs : s ∈ rows) :
    findByName rows s.name = some s := by
  induction rows with
  | nil => cases hs
  | cons a rest ih =>
    simp only [List.map_cons, List.nodup_cons] at hnd
    rcases List.mem_cons.mp hs with rfl | hs'
    · unfold findByName
      simp [List.find?_cons]
    · have hne : (a.name == s.name) = false := by
        rw [beq_eq_false_iff_ne]
        intro he
        exact hnd.1 (he ▸ List.mem_map_of_mem CodeSpecRow.name hs')
      unfold findByName
      rw [List.find?_cons, hne]
      exact ih hnd.2 hs'

/-- On the source connection the join is a self-join: with `Name` unique,
every source code spec is remapped to its own source id and the fresh-id
counter is never advanced — the target's rows are never consulted. -/
theorem codeSpecRemapFirstRev_identity (srcRows : List CodeSpecRow)
    (hnd : (srcRows.map CodeSpecRow.name).Nodup) (n : Nat) :
    codeSpecRemapFirstRev srcRows n = (srcRows.map fun s => (s.id, s.id), n) := by
  suffices h : ∀ (rows : List CodeSpecRow) (m : Nat), (∀ s ∈ rows, s ∈ srcRows) →
      codeSpecRemapFirstRevGo srcRows rows m = (rows.map fun s => (s.id, s.id), m) by
    exact h srcRows n fun s hs => hs
  intro rows
  induction rows with
  | nil => intro m _; rfl
  | cons s rest ih =>
    intro m hsub
    have hfind := findByName_self hnd (hsub s (List.mem_cons_self _ _))
    simp only [codeSpecRemapFirstRevGo, hfind,
      ih m fun q hq => hsub q (List.mem_cons_of_mem _ hq), List.map_cons]

/-! ### Trigger suspension and restoration -/

/-- Control flow of `rawEmulatedPolymorphicInsertTransform` around trigger
suspension (identical in both revisions; lines 545-562 capture the trigger
name/SQL pairs from `sqlite_master` and drop every trigger, lines 735-737
re-execute each captured SQL): the id-allocation and bulk-insert phases in
between are summarized by their `Except`-valued outcome, since any error
they throw propagates straight out of the function — there is no
try/finally around them.  Returns the surfaced outcome paired with the
triggers installed on the target at that moment. -/
def triggerFlow (triggers : List (String × String))
    (bulkResult : Except String Unit) :
    Except String Unit × List (String × String) :=
  let installedAfterDrop : List (String × String) := []
  match bulkResult with
  | .ok _ => (.ok (), installedAfterDrop ++ triggers)
  | .error e => (.error e, installedAfterDrop)

/-! ### Per-class statement synthesis (first revision) -/

/-- The property kinds of `@itwin/ecschema-metadata` used by the
transformer's property dispatch. -/
inductive PropertyType where
  | Struct
  | Struct_Array
  | Binary_Array
  | Boolean_Array
  | DateTime_Array
  | Double_Array
  | Integer_Array
  | Integer_Enumeration_Array
  | Long_Array
  | Point2d_Array
  | Point3d_Array
  | String_Array
  | String_Enumeration_Array
  | IGeometry_Array
  | Navigation
  | Point2d
  | Point3d
  | Long
  | Binary
  | Boolean
  | DateTime
  | Double
  | Integer
  | Integer_Enumeration
  | IGeometry
  | StringProp
  | String_Enumeration
deriving DecidableEq, Repr

/-- A property as carried by `ClassData.properties`. -/
structure PropInfo where
  name : String
  propertyType : PropertyType
deriving DecidableEq, Repr

/-- `excludedPropertyTypes` of `bulkInsertTransform` (lines 246-261): the
struct and array-valued property kinds. -/
def excludedPropertyTypes : List PropertyType :=
  [.Struct, .Struct_Array, .Binary_Array, .Boolean_Array, .DateTime_Array,
   .Double_Array, .Integer_Array, .Integer_Enumeration_Array, .Long_Array,
   .Point2d_Array, .Point3d_Array, .String_Array, .String_Enumeration_Array,
   .IGeometry_Array]

/-- `queryProps` (line 263): the class's properties with the excluded kinds
filtered out. -/
def queryProps (properties : List PropInfo) : List PropInfo :=
  properties.filter fun p => !(excludedPropertyTypes.contains p.propertyType)

/-- Containment of a contiguous character pattern, for the unanchored
regular-expression test of the catch clause. -/
def containsSub (pat : List Char) : List Char → Bool
  | [] => pat.isPrefixOf []
  | c :: rest => pat.isPrefixOf (c :: rest) || containsSub pat rest

/-- The per-class catch of `bulkInsertTransform` (lines 432-439) treats
exactly two error shapes as a non-fatal skip: messages ending in
"Use the respective navigation property to modify it." and messages
containing "is mapped to an existing table not owned by ECDb"; every other
error is rethrown. -/
def isWhitelistedSynthErr (msg : String) : Bool :=
  List.isSuffixOf "Use the respective navigation property to modify it.".data msg.data
    || containsSub "is mapped to an existing table not owned by ECDb".data msg.data

/-- A class as seen by the `bulkInsertTransform` loop: its full name, its
property list, and the outcome of preparing its synthesized statements
against the source/target stores (an external effect, passed in). -/
structure ClassInfo where
  classFullName : String
  properties : List PropInfo
  synthResult : Except String Unit
deriving Repr

/-- One iteration of the per-class loop of `bulkInsertTransform` (lines
240-440): on successful synthesis the class gets an inserter over its
`queryProps`; a whitelisted synthesis error skips the class (`continue`);
any other error is rethrown and aborts the whole call. -/
def processClass (c : ClassInfo) : Except String (Option (String × List PropInfo)) :=
  match c.synthResult with
  | .ok _ => .ok (some (c.classFullName, queryProps c.properties))
  | .error msg => if isWhitelistedSynthErr msg then .ok none else .error msg

/-- The whole per-class loop: the map of class inserters actually run
(lines 448-457), in declaration order. -/
def buildClassInserters : List ClassInfo → Except String (List (String × List PropInfo))
  | [] => .ok []
  | c :: rest =>
    match processClass c with
    | .error e => .error e
    | .ok none => buildClassInserters rest
    | .ok (some x) => (buildClassInserters rest).map fun l => x :: l

/-! ### IModelElementCloneContext -/

/-- `Id64.invalid` of `@itwin/core-bentley`: the string "0". -/
def id64Invalid : String := "0"

/-- Lookup in a `Map<Id64String, Id64String>` (insertion-ordered,
first-match; keys are unique). -/
def strLookup : List (String × String) → String → Option String
  | [], _ => none
  | (a, b) :: rest, x => if a = x then some b else strLookup rest x

/-- The remap state of `IModelElementCloneContext`: the `_elementRemaps`
and `_codeSpecRemaps` maps (clone-context source file, lines 60-61). -/
structure IModelElementCloneContext where
  elementRemaps : List (String × String)
  codeSpecRemaps : List (String × String)
deriving DecidableEq, Repr

/-- `IModelElementCloneContext.findTargetCodeSpecId` (lines 97-102):
returns `Id64.invalid` for the invalid input before touching the map, and
the mapped id or `Id64.invalid` otherwise. -/
def IModelElementCloneContext.findTargetCodeSpecId
    (ctx : IModelElementCloneContext) (sourceId : String) : String :=
  if id64Invalid = sourceId then id64Invalid
  else (strLookup ctx.codeSpecRemaps sourceId).getD id64Invalid

/-- `IModelElementCloneContext.findTargetElementId` (lines 107-112). -/
def IModelElementCloneContext.findTargetElementId
    (ctx : IModelElementCloneContext) (sourceElementId : String) : String :=
  if id64Invalid = sourceElementId then id64Invalid
  else (strLookup ctx.elementRemaps sourceElementId).getD id64Invalid

/-! ### Claim theorems -/

/-- C7 (counterexample): the claim says that every fatal error raised after
the triggers were dropped surfaces only after the suspended triggers have
been restored.  At the concrete input — one captured trigger, a failing
bulk phase — the run surfaces the error with no trigger installed, so the
claim is false on this code: there is no try/finally around the phases
between the drop loop and the restore loop. -/
theorem C7_counterexample :
    (triggerFlow [("t1", "CREATE TRIGGER t1 END")] (.error "boom")).1 = .error "boom"
    ∧ (triggerFlow [("t1", "CREATE TRIGGER t1 END")] (.error "boom")).2 = []
    ∧ ([] : List (String × String)) ≠ [("t1", "CREATE TRIGGER t1 END")] :=
  ⟨rfl, rfl, by decide⟩

/-- C7 (amended): the captured triggers are re-executed verbatim only on
the success path of the run; a fatal error raised after the drop loop
propagates immediately and the run fails with the target's triggers still
removed. -/
theorem C7_trigger_restoration (trig : List (String × String))
    (res : Except String Unit) :
    (res = .ok () → triggerFlow trig res = (.ok (), trig))
    ∧ (∀ e, res = .error e → triggerFlow trig res = (.error e, [])) := by
  constructor
  · intro h
    subst h
    rfl
  · intro e h
    subst h
    rfl

theorem C7_trigger_restoration_witness :
    triggerFlow [("tr", "CREATE TRIGGER tr END")] (.ok ())
      = (.ok (), [("tr", "CREATE TRIGGER tr END")]) :=
  (C7_trigger_restoration [("tr", "CREATE TRIGGER tr END")] (.ok ())).1 rfl

/-- C8 (counterexample): the claim says every class with an array-valued or
struct property is marked non-transformable and skipped.  At the concrete
input — a class with a `String_Array` property whose statement synthesis
succeeds — the per-class loop produces an inserter (the class's rows are
migrated); only the array property itself is dropped from the statement's
property list.  The class is not skipped, so the claim is false. -/
theorem C8_counterexample :
    processClass ⟨"S.C", [⟨"arr", .String_Array⟩, ⟨"x", .Integer⟩], .ok ()⟩
        = .ok (some ("S.C", [⟨"x", PropertyType.Integer⟩]))
    ∧ processClass ⟨"S.C", [⟨"arr", .String_Array⟩, ⟨"x", .Integer⟩], .ok ()⟩
        ≠ .ok none := by
  constructor
  · rfl
  · intro h
    rw [show processClass ⟨"S.C", [⟨"arr", .String_Array⟩, ⟨"x", .Integer⟩], .ok ()⟩
        = .ok (some ("S.C", [⟨"x", PropertyType.Integer⟩])) from rfl] at h
    injection h with h
    exact Option.noConfusion h

/-- C8 (amended): a class whose statements synthesize successfully is
migrated whatever its properties are — its array-valued and struct
properties are merely excluded from the synthesized statements; a class is
marked non-transformable and skipped, without aborting the run, exactly
when synthesis fails with one of the two whitelisted store-mapping errors,
and any other synthesis error aborts the whole call. -/
theorem C8_nontransformable_skip (c : ClassInfo) (rest : List ClassInfo) :
    (c.synthResult = .ok () →
      processClass c = .ok (some (c.classFullName, queryProps c.properties))
      ∧ ∀ p ∈ queryProps c.properties, p.propertyType ∉ excludedPropertyTypes)
    ∧ (∀ msg, c.synthResult = .error msg → isWhitelistedSynthErr msg = true →
        processClass c = .ok none
        ∧ buildClassInserters (c :: rest) = buildClassInserters rest)
    ∧ (∀ msg, c.synthResult = .error msg → isWhitelistedSynthErr msg = false →
        buildClassInserters (c :: rest) = .error msg) := by
  refine ⟨?_, ?_, ?_⟩
  · intro h
    constructor
    · simp only [processClass, h]
    · intro p hp
      rw [queryProps, List.mem_filter] at hp
      intro hmem
      have : excludedPropertyTypes.contains p.propertyType = true := by
        exact List.elem_eq_true_of_mem hmem
      rw [this] at hp
      exact absurd hp.2 (by decide)
  · intro msg h hw
    have hskip : processClass c = .ok none := by
      simp only [processClass, h]
      rw [if_pos hw]
    refine ⟨hskip, ?_⟩
    simp only [buildClassInserters, hskip]
  · intro msg h hw
    have herr : processClass c = .error msg := by
      simp only [processClass, h]
      rw [if_neg (by rw [hw]; exact Bool.false_ne_true)]
    simp only [buildClassInserters, herr]

theorem C8_nontransformable_skip_witness :
    processClass ⟨"S.D", [⟨"y", .Long⟩],
        .error "class is mapped to an existing table not owned by ECDb"⟩ = .ok none
    ∧ buildClassInserters [⟨"S.D", [⟨"y", .Long⟩],
        .error "class is mapped to an existing table not owned by ECDb"⟩]
      = buildClassInserters [] :=
  (C8_nontransformable_skip
    ⟨"S.D", [⟨"y", .Long⟩],
      .error "class is mapped to an existing table not owned by ECDb"⟩ []).2.1
    "class is mapped to an existing table not owned by ECDb" rfl (by decide)

/-- C9: every remap table is seeded with the mapping 0 → 0 before
allocation, and the Remapper getters return the string "0" both for an
unmapped source id and for a source id mapped to 0 — in particular
`findTargetElementId "0"` returns "0" — so a caller cannot distinguish
"unmapped" from "mapped to 0". -/
theorem C9_remapper_zero_ambiguity :
    ((CompactRemapTable.empty.remap 0 0).get 0 = some 0)
    ∧ (∀ (tbl : CompactRemapTable) (s : String),
        tbl.get (parseHexId s) = none → makeGetter tbl s = "0")
    ∧ (∀ (tbl : CompactRemapTable) (s : String),
        tbl.get (parseHexId s) = some 0 → makeGetter tbl s = "0")
    ∧ (∀ tbl : CompactRemapTable, tbl.get 0 = some 0 → makeGetter tbl "0" = "0") := by
  refine ⟨?_, ?_, ?_, ?_⟩
  · simp [CompactRemapTable.remap, CompactRemapTable.empty, CompactRemapTable.get,
      insertRun, coalesceRuns, runsGet]
  · intro tbl s h
    unfold makeGetter
    rw [h]
  · intro tbl s h
    unfold makeGetter
    rw [h]
    rfl
  · intro tbl h
    unfold makeGetter
    rw [show parseHexId "0" = 0 from by decide, h]
    rfl

theorem C9_remapper_zero_ambiguity_witness :
    makeGetter ⟨[⟨5, 0, 1⟩]⟩ "0x5" = "0"
    ∧ makeGetter ⟨[⟨5, 0, 1⟩]⟩ "0x7" = "0"
    ∧ makeGetter ⟨[⟨0, 0, 1⟩]⟩ "0" = "0" :=
  ⟨C9_remapper_zero_ambiguity.2.2.1 ⟨[⟨5, 0, 1⟩]⟩ "0x5" (by decide),
   C9_remapper_zero_ambiguity.2.1 ⟨[⟨5, 0, 1⟩]⟩ "0x7" (by decide),
   C9_remapper_zero_ambiguity.2.2.2 ⟨[⟨0, 0, 1⟩]⟩ (by decide)⟩

/-- C10: `IModelElementCloneContext.findTargetElementId` and
`findTargetCodeSpecId` return `Id64.invalid` for the invalid input without
consulting their remap maps (whatever those maps hold), and return
`Id64.invalid` for any identifier with no recorded remap rule. -/
theorem C10_clone_context_invalid (ctx : IModelElementCloneContext) :
    (ctx.findTargetElementId id64Invalid = id64Invalid
      ∧ ctx.findTargetCodeSpecId id64Invalid = id64Invalid)
    ∧ (∀ id, strLookup ctx.elementRemaps id = none →
        ctx.findTargetElementId id = id64Invalid)
    ∧ (∀ id, strLookup ctx.codeSpecRemaps id = none →
        ctx.findTargetCodeSpecId id = id64Invalid) := by
  refine ⟨⟨?_, ?_⟩, ?_, ?_⟩
  · unfold IModelElementCloneContext.findTargetElementId
    rw [if_pos rfl]
  · unfold IModelElementCloneContext.findTargetCodeSpecId
    rw [if_pos rfl]
  · intro id h
    unfold IModelElementCloneContext.findTargetElementId
    split_ifs
    · rfl
    · rw [h]
      rfl
  · intro id h
    unfold IModelElementCloneContext.findTargetCodeSpecId
    split_ifs
    · rfl
    · rw [h]
      rfl

theorem C10_clone_context_invalid_witness :
    (⟨[("0", "0xbad")], [("0", "0xbeef")]⟩ :
        IModelElementCloneContext).findTargetElementId "0" = "0"
    ∧ (⟨[], []⟩ : IModelElementCloneContext).findTargetElementId "0x5" = "0" :=
  ⟨(C10_clone_context_invalid ⟨[("0", "0xbad")], [("0", "0xbeef")]⟩).1.1,
   (C10_clone_context_invalid ⟨[], []⟩).2.1 "0x5" rfl⟩

/-- C2: for every run `(from, to, length)` of a (well-formed) remap table,
looking up any sourceId in `[from, from + length)` — through the table's
`get`, or through the SQL run-lookup expression over the table's rows —
returns `to + (sourceId - from)`, and looking up a sourceId covered by no
run returns the unmapped result; the Remapper getter built over the table
realizes the same formula, rendering the value in hex and answering "0"
for unmapped ids. -/
theorem C2_remap_lookup_correctness (tbl : CompactRemapTable) (hwf : tbl.WF) :
    (∀ r ∈ tbl.runs, ∀ x, r.sourceId ≤ x → x < r.sourceId + r.length →
        tbl.get x = some (r.targetId + (x - r.sourceId))
          ∧ sqlRunLookup tbl.runs x
            = some ((r.targetId : Int) + ((x : Int) - (r.sourceId : Int))))
    ∧ (∀ x, (∀ r ∈ tbl.runs, ¬(r.sourceId ≤ x ∧ x < r.sourceId + r.length)) →
        tbl.get x = none ∧ sqlRunLookup tbl.runs x = none)
    ∧ (∀ s, tbl.get (parseHexId s) = none → makeGetter tbl s = "0")
    ∧ (∀ s v, tbl.get (parseHexId s) = some v → v ≠ 0 →
        makeGetter tbl s = natToHexStr v) := by
  refine ⟨?_, ?_, ?_, ?_⟩
  · intro r hr x h1 h2
    have hget : tbl.get x = some (r.targetId + (x - r.sourceId)) :=
      runsGet_of_mem hwf hr h1 h2
    refine ⟨hget, ?_⟩
    show sqlRunLookup tbl.runsList x = _
    rw [sqlRunLookup_eq_runsGet _ _ hwf.1]
    rw [show runsGet x tbl.runsList = some (r.targetId + (x - r.sourceId)) from hget]
    simp only [Option.map_some', Option.some.injEq, Int.ofNat_eq_coe]
    omega
  · intro x hx
    have hget : tbl.get x = none := runsGet_none_of_not_covered hx
    refine ⟨hget, ?_⟩
    show sqlRunLookup tbl.runsList x = none
    rw [sqlRunLookup_eq_runsGet _ _ hwf.1]
    rw [show runsGet x tbl.runsList = none from hget]
    rfl
  · intro s h
    unfold makeGetter
    rw [h]
  · intro s v h hv
    unfold makeGetter
    rw [h]
    simp [hv]

theorem C2_remap_lookup_correctness_witness :
    (⟨[⟨3, 10, 2⟩]⟩ : CompactRemapTable).get 4 = some 11
    ∧ sqlRunLookup (⟨[⟨3, 10, 2⟩]⟩ : CompactRemapTable).runs 4 = some 11
    ∧ (⟨[⟨3, 10, 2⟩]⟩ : CompactRemapTable).get 7 = none
    ∧ makeGetter (⟨[⟨3, 10, 2⟩]⟩ : CompactRemapTable) "0x4" = "0xb" := by
  have hc := C2_remap_lookup_correctness ⟨[⟨3, 10, 2⟩]⟩ (by decide)
  have hmem : (⟨3, 10, 2⟩ : RemapRun) ∈ (⟨[⟨3, 10, 2⟩]⟩ : CompactRemapTable).runs :=
    List.mem_singleton_self _
  refine ⟨?_, ?_, ?_, ?_⟩
  · exact (hc.1 ⟨3, 10, 2⟩ hmem 4 (by decide) (by decide)).1
  · have := (hc.1 ⟨3, 10, 2⟩ hmem 4 (by decide) (by decide)).2
    rw [this]
    decide
  · exact (hc.2.1 7 (by decide)).1
  · have := hc.2.2.2 "0x4" 11 (by decide) (by decide)
    rw [this]
    simp [natToHexStr, toHexCore, hexDigitChar]

/-- C3: the allocator never assigns the same target identifier to two
distinct source identifiers within one namespace — every successful merge
emits pairwise-distinct target ids — and whenever two of the (ascending)
merged streams contain an equal value, the loop reaches a state where two
cursors report that value as their heads and the pairwise head assertion
aborts the run instead of silently overwriting a mapping. -/
theorem C3_allocator_namespace_uniqueness (c : Nat) (ma ua rel : List Nat)
    (hma : ma.Pairwise (· < ·)) (hua : ua.Pairwise (· < ·))
    (hrel : rel.Pairwise (· < ·)) :
    (∀ ps, merge3 c ma ua rel = .ok ps → (ps.map Prod.snd).Nodup)
    ∧ (∀ v, ((v ∈ ma ∧ v ∈ ua) ∨ (v ∈ ma ∧ v ∈ rel) ∨ (v ∈ ua ∧ v ∈ rel)) →
        merge3 c ma ua rel = .error ()) := by
  constructor
  · intro ps h
    rw [merge3_ok_snd c ma ua rel ps h]
    exact List.nodup_range' _ _
  · exact merge3_shared_error c ma ua rel hma hua hrel

theorem C3_allocator_namespace_uniqueness_witness :
    (([(2, 100), (5, 101), (9, 102)] : List (Nat × Nat)).map Prod.snd).Nodup
    ∧ merge3 100 [3, 7] [7] [] = .error () :=
  ⟨(C3_allocator_namespace_uniqueness 100 [2, 9] [5] []
      (by decide) (by decide) (by decide)).1
    [(2, 100), (5, 101), (9, 102)] (by simp [merge3, Except.map]),
   (C3_allocator_namespace_uniqueness 100 [3, 7] [7] []
      (by decide) (by decide) (by decide)).2 7 (Or.inl ⟨by decide, by decide⟩)⟩

/-- C4: for ascending input streams sharing one namespace (pairwise
disjoint), the multiway merge succeeds and visits all source identifiers
in globally ascending order, assigning target identifiers from the single
monotonically increasing counter, so the resulting source-to-target
mapping is strictly increasing in the source identifier. -/
theorem C4_allocator_monotonicity (c : Nat) (ma ua rel : List Nat)
    (hma : ma.Pairwise (· < ·)) (hua : ua.Pairwise (· < ·))
    (hrel : rel.Pairwise (· < ·))
    (d12 : ∀ x ∈ ma, x ∉ ua) (d13 : ∀ x ∈ ma, x ∉ rel)
    (d23 : ∀ x ∈ ua, x ∉ rel) :
    ∃ ps, merge3 c ma ua rel = .ok ps
      ∧ (ps.map Prod.fst).Pairwise (· < ·)
      ∧ (∀ x, x ∈ ps.map Prod.fst ↔ (x ∈ ma ∨ x ∈ ua ∨ x ∈ rel))
      ∧ ps.map Prod.snd = List.range' c ps.length
      ∧ ∀ p ∈ ps, ∀ q ∈ ps, p.1 < q.1 → p.2 < q.2 := by
  obtain ⟨ps, hok, hsort, hmem⟩ := merge3_spec c ma ua rel hma hua hrel d12 d13 d23
  have hsnd := merge3_ok_snd c ma ua rel ps hok
  refine ⟨ps, hok, hsort, hmem, hsnd, ?_⟩
  have hfst : ∀ a b (ha : a < ps.length) (hb : b < ps.length), a < b →
      (ps.get ⟨a, ha⟩).1 < (ps.get ⟨b, hb⟩).1 := by
    intro a b ha hb hab
    have hmap : ∀ k (hk : k < ps.length),
        (ps.map Prod.fst).get ⟨k, by simpa using hk⟩ = (ps.get ⟨k, hk⟩).1 := by
      intro k hk
      simp [List.get_eq_getElem, List.getElem_map]
    have := List.pairwise_iff_get.mp hsort ⟨a, by simpa using ha⟩
      ⟨b, by simpa using hb⟩ hab
    rwa [hmap a ha, hmap b hb] at this
  have hsndpw : (ps.map Prod.snd).Pairwise (· < ·) := by
    rw [hsnd]
    exact List.pairwise_lt_range' _ _
  intro p hp q hq hlt
  rcases List.mem_iff_get.mp hp with ⟨⟨i, hi⟩, rfl⟩
  rcases List.mem_iff_get.mp hq with ⟨⟨j, hj⟩, rfl⟩
  have hij : i < j := by
    rcases Nat.lt_trichotomy i j with h | h | h
    · exact h
    · exfalso
      subst h
      omega
    · exfalso
      have := hfst j i hj hi h
      omega
  have hs2 := List.pairwise_iff_get.mp hsndpw ⟨i, by simpa using hi⟩
    ⟨j, by simpa using hj⟩ hij
  simpa [List.get_eq_getElem, List.getElem_map] using hs2

theorem C4_allocator_monotonicity_witness :
    ∃ ps, merge3 50 [2, 5] [3] [4, 7] = .ok ps
      ∧ (ps.map Prod.fst).Pairwise (· < ·)
      ∧ (∀ x, x ∈ ps.map Prod.fst ↔ (x ∈ [2, 5] ∨ x ∈ [3] ∨ x ∈ [4, 7]))
      ∧ ps.map Prod.snd = List.range' 50 ps.length
      ∧ ∀ p ∈ ps, ∀ q ∈ ps, p.1 < q.1 → p.2 < q.2 :=
  C4_allocator_monotonicity 50 [2, 5] [3] [4, 7]
    (by decide) (by decide) (by decide) (by decide) (by decide) (by decide)

/-- C5: the three bootstrap identifiers 0x1 (root), 0xe (dictionary) and
0x10 (well-known) are remapped to themselves in the element remap table
and stay so across the whole element allocation pass, and the element
selection filter used by the migration queries excludes all three, so they
are never re-migrated. -/
theorem C5_bootstrap_identifiers (ids : List Nat) (n0 : Nat)
    (hsel : ∀ s ∈ ids, elemSelectKeeps s = true) :
    ((allocElems bootstrapElemTable n0 ids).1.get 0x1 = some 0x1
      ∧ (allocElems bootstrapElemTable n0 ids).1.get 0xe = some 0xe
      ∧ (allocElems bootstrapElemTable n0 ids).1.get 0x10 = some 0x10)
    ∧ (elemSelectKeeps 0x1 = false ∧ elemSelectKeeps 0xe = false
      ∧ elemSelectKeeps 0x10 = false) := by
  have hwf : bootstrapElemTable.WF :=
    CompactRemapTable.WF_remap
      (CompactRemapTable.WF_remap
        (CompactRemapTable.WF_remap
          (CompactRemapTable.WF_remap CompactRemapTable.WF_empty 0 0) 0x1 0x1)
        0xe 0xe) 0x10 0x10
  have hne : ∀ (x : Nat), x = 0x1 ∨ x = 0xe ∨ x = 0x10 → ∀ s ∈ ids, s ≠ x := by
    intro x hx s hs he
    subst he
    rcases hx with rfl | rfl | rfl <;> exact absurd (hsel _ hs) (by decide)
  have hb1 : bootstrapElemTable.get 0x1 = some 0x1 := by
    simp [bootstrapElemTable, CompactRemapTable.remap, CompactRemapTable.get,
      CompactRemapTable.empty, insertRun, coalesceRuns, runsGet]
  have hbe : bootstrapElemTable.get 0xe = some 0xe := by
    simp [bootstrapElemTable, CompactRemapTable.remap, CompactRemapTable.get,
      CompactRemapTable.empty, insertRun, coalesceRuns, runsGet]
  have hb10 : bootstrapElemTable.get 0x10 = some 0x10 := by
    simp [bootstrapElemTable, CompactRemapTable.remap, CompactRemapTable.get,
      CompactRemapTable.empty, insertRun, coalesceRuns, runsGet]
  refine ⟨⟨?_, ?_, ?_⟩, by decide, by decide, by decide⟩
  · rw [(allocElems_preserves ids bootstrapElemTable n0 hwf
      (hne 0x1 (Or.inl rfl))).1, hb1]
  · rw [(allocElems_preserves ids bootstrapElemTable n0 hwf
      (hne 0xe (Or.inr (Or.inl rfl)))).1, hbe]
  · rw [(allocElems_preserves ids bootstrapElemTable n0 hwf
      (hne 0x10 (Or.inr (Or.inr rfl)))).1, hb10]

theorem C5_bootstrap_identifiers_witness :
    ((allocElems bootstrapElemTable 200 [0x12, 0x15]).1.get 0x1 = some 0x1
      ∧ (allocElems bootstrapElemTable 200 [0x12, 0x15]).1.get 0xe = some 0xe
      ∧ (allocElems bootstrapElemTable 200 [0x12, 0x15]).1.get 0x10 = some 0x10)
    ∧ (elemSelectKeeps 0x1 = false ∧ elemSelectKeeps 0xe = false
      ∧ elemSelectKeeps 0x10 = false) :=
  C5_bootstrap_identifiers [0x12, 0x15] 200 (by decide)

/-- The SECOND revision's code-spec loop does implement natural-key
matching: a name already present in the target remaps the source id to the
pre-existing row's id without inserting, and a second run over the same
specification yields the same target id with the target store unchanged.
(Supporting lemma; the claim about the cited first-revision query is
settled by `C6_codespec_first_revision_bug` below.) -/
theorem migrateCodeSpec_name_match_idempotent (tgt : List CodeSpecRow) (n : Nat)
    (rm : List (Nat × Nat)) (s : CodeSpecRow) :
    (∀ t, findByName tgt s.name = some t →
        migrateCodeSpec tgt n rm s = (tgt, n, rm ++ [(s.id, t.id)]))
    ∧ (∃ tid,
        (migrateCodeSpec tgt n rm s).2.2 = rm ++ [(s.id, tid)]
        ∧ migrateCodeSpec (migrateCodeSpec tgt n rm s).1
            (migrateCodeSpec tgt n rm s).2.1
            (migrateCodeSpec tgt n rm s).2.2 s
          = ((migrateCodeSpec tgt n rm s).1,
             (migrateCodeSpec tgt n rm s).2.1,
             (migrateCodeSpec tgt n rm s).2.2 ++ [(s.id, tid)])) := by
  constructor
  · intro t ht
    unfold migrateCodeSpec
    rw [ht]
  · match hfind : findByName tgt s.name with
    | some t =>
      refine ⟨t.id, ?_, ?_⟩
      · unfold migrateCodeSpec
        rw [hfind]
      · have h1 : migrateCodeSpec tgt n rm s = (tgt, n, rm ++ [(s.id, t.id)]) := by
          unfold migrateCodeSpec
          rw [hfind]
        rw [h1]
        unfold migrateCodeSpec
        rw [hfind]
    | none =>
      refine ⟨n, ?_, ?_⟩
      · unfold migrateCodeSpec
        rw [hfind]
      · have h1 : migrateCodeSpec tgt n rm s =
            (tgt ++ [{ id := n, name := s.name, jsonProps := s.jsonProps }],
              n + 1, rm ++ [(s.id, n)]) := by
          unfold migrateCodeSpec
          rw [hfind]
        rw [h1]
        have hfind2 : findByName
            (tgt ++ [{ id := n, name := s.name, jsonProps := s.jsonProps }]) s.name
            = some { id := n, name := s.name, jsonProps := s.jsonProps } := by
          unfold findByName
          rw [List.find?_append]
          rw [show List.find? (fun t => t.name == s.name) tgt = none from hfind]
          simp [List.find?]
        unfold migrateCodeSpec
        rw [hfind2]

theorem migrateCodeSpec_name_match_example :
    migrateCodeSpec [⟨7, "sp", "x"⟩] 9 [] ⟨3, "sp", "y"⟩
      = ([⟨7, "sp", "x"⟩], 9, [(3, 7)]) :=
  (migrateCodeSpec_name_match_idempotent [⟨7, "sp", "x"⟩] 9 [] ⟨3, "sp", "y"⟩).1
    ⟨7, "sp", "x"⟩ (by decide)

/-- C6 (code bug): the claim — a CodeSpec whose name already exists in the
target is remapped to the pre-existing target row's id — matches the
spec's stated design and the second revision's loop, but the cited first
revision runs `codeSpecRemapSelect` on the SOURCE connection, where the
LEFT JOIN self-joins the source's own `bis_CodeSpec`.  At the failing
input — the source holds code spec (3, "sp"), the target already holds
(7, "sp") so the target-derived counter starts at 8 — the loop records the
remap row (3, 3): the source id is remapped to itself, not to the
pre-existing target row's id 7, and the fresh-id branch never fires (the
counter stays 8).  The target's rows are not read at all: the dead
`useCodeSpecIdRaw` counter seeded from the target's max id, the sibling
revision's correct form of the same query, and the `ON CONFLICT` FIXME
show the claimed behaviour is the intent and this execution a slip. -/
theorem C6_codespec_first_revision_bug :
    (codeSpecRemapFirstRev [⟨3, "sp", "y"⟩] 8).1 = [(3, 3)]
    ∧ ((3, 3) : Nat × Nat) ≠ (3, 7)
    ∧ (codeSpecRemapFirstRev [⟨3, "sp", "y"⟩] 8).2 = 8 :=
  ⟨rfl, by decide, rfl⟩

end Spec2Proof
